import Mathlib

/-!
Verification of the seismic-zfp conversion core (`src/seismic_zfp/convert.py`)
and the correlated-diagonal addressing used by
`src/examples/read-correlated-diagonal.py`.

Conventions of the embedding:
* amplitude samples are `Int` (the codec is opaque, so the value type is
  irrelevant to every property proved here);
* byte buffers are `List Nat` (each entry one byte);
* fallible code returns `Except ConvError`;
* the external collaborators that are not part of the repository sources
  (the zfp codec, segyio, psutil) and the repository's own `utils.py`
  (absent from `src/`) are modelled from the specification, each with a
  doc comment saying so.
-/

namespace SeismicZfp

/-- `DISK_BLOCK_BYTES` constant from `convert.py`. -/
def DISK_BLOCK_BYTES : Nat := 4096

/-- Little-endian 4-byte encoding of a natural number, as produced by
Python's `int.to_bytes(4, byteorder='little')` (for values below `2^32`). -/
def uint32le (n : Nat) : List Nat :=
  [n % 256, n / 256 % 256, n / 65536 % 256, n / 16777216 % 256]

/-- Error kinds surfaced by the conversion pipeline (the spec's names for
the failure points of `convert.py`). -/
inductive ConvError where
  | sourceFormat
  | invalidGeometry
  | insufficientMemory
  | zeroDivision
  deriving DecidableEq

/-- A raw SEGY input file: coordinate-value lists for the three axes and
the trace data laid out inline-by-inline (possibly irregular). -/
structure RawSegy where
  ilines : List Int
  xlines : List Int
  samples : List Int
  data : List (List (List Int))

/-- An opened, geometry-checked SEGY handle as exposed by `segyio.open`:
axis coordinate lists plus positional trace access. -/
structure SegySource where
  ilines : List Int
  xlines : List Int
  samples : List Int
  trace : Nat → Nat → Nat → Int

/-- Whether the raw trace data forms a regular cube matching the declared
axis lengths (constant trace length across all inlines and crosslines). -/
def consistentB (r : RawSegy) : Bool :=
  (r.data.length == r.ilines.length) &&
    r.data.all fun p =>
      (p.length == r.xlines.length) &&
        p.all fun row => row.length == r.samples.length

/-- The `SegySource` view of a consistent `RawSegy`. -/
def sourceOf (r : RawSegy) : SegySource :=
  { ilines := r.ilines, xlines := r.xlines, samples := r.samples,
    trace := fun i x t => ((r.data.getD i []).getD x []).getD t 0 }

/-- Modelled from the spec: the external source-format reader (`segyio`,
not part of this repository). Per spec §6 it "must raise/report on
malformed geometry"; opening a file whose trace geometry is inconsistent
fails, otherwise it exposes the regular cube. -/
def openSegy (r : RawSegy) : Except ConvError SegySource :=
  if consistentB r then .ok (sourceOf r) else .error .sourceFormat

/-- Modelled from the spec: the memory-introspection collaborator
(`psutil.virtual_memory()`), which "reports total/available physical
memory". -/
structure MemInfo where
  total : Nat
  available : Nat

/-- Modelled from the spec: `pad` from the repository's `utils.py` (absent
from `src/`), "rounding each dimension up to its required multiple". -/
def pad (orig multiple : Nat) : Nat :=
  if orig % multiple = 0 then orig else orig + (multiple - orig % multiple)

/-- The integer division `2048 // bits_per_voxel` from `convert.py`;
Python raises `ZeroDivisionError` at zero. -/
def blockSize (bpv : Nat) : Except ConvError Nat :=
  if bpv = 0 then .error .zeroDivision else .ok (2048 / bpv)

/-- The fallible application of `pad` at the sample axis,
`pad(trace_length, 2048 // bits_per_voxel)`: when the block size is 0
(bits_per_voxel above 2048) the round-up pad's remainder operation divides
by zero in Python, so the call raises rather than returning. -/
def padE (orig multiple : Nat) : Except ConvError Nat :=
  if multiple = 0 then .error .zeroDivision else .ok (pad orig multiple)

/-- The 4096-byte header buffer built by `make_header` in `convert.py` for
an opened source `s`: block count 1, the three axis lengths, the three
first coordinate values, the three increments (difference of the first two
values of each axis), bits-per-voxel, then zero fill.  `f2b` stands for
`np_float_to_bytes` from the repository's `utils.py` (absent from `src/`),
modelled from the spec as the 4-byte IEEE-754 little-endian float encoder
and kept abstract here. -/
def headerBytes (f2b : Int → List Nat) (s : SegySource) (bpv : Nat) : List Nat :=
  uint32le 1 ++
  uint32le s.samples.length ++ uint32le s.xlines.length ++ uint32le s.ilines.length ++
  f2b (s.samples.getD 0 0) ++ f2b (s.xlines.getD 0 0) ++ f2b (s.ilines.getD 0 0) ++
  f2b (s.samples.getD 1 0 - s.samples.getD 0 0) ++
  f2b (s.xlines.getD 1 0 - s.xlines.getD 0 0) ++
  f2b (s.ilines.getD 1 0 - s.ilines.getD 0 0) ++
  uint32le bpv ++
  List.replicate (DISK_BLOCK_BYTES - 44) 0

/-- `make_header` from `convert.py`: opens the source and fills the header
buffer.  Indexing `samples[1]`/`xlines[1]`/`ilines[1]` fails (Python
`IndexError`, the spec's `InvalidGeometry`) when an axis has fewer than two
coordinate values. -/
def makeHeader (f2b : Int → List Nat) (r : RawSegy) (bpv : Nat) :
    Except ConvError (List Nat) :=
  match openSegy r with
  | .error e => .error e
  | .ok s =>
    if 2 ≤ s.samples.length ∧ 2 ≤ s.xlines.length ∧ 2 ≤ s.ilines.length then
      .ok (headerBytes f2b s bpv)
    else
      .error .invalidGeometry

/-- Ascending concatenation `f 0 ++ f 1 ++ ... ++ f (n-1)` of byte chunks. -/
def catUp (f : Nat → List Nat) : Nat → List Nat
  | 0 => []
  | n + 1 => catUp f n ++ f n

/-- The 4 × 4 × `B` sample block of volume `v` at block coordinates
`(bi, bx, bs)`, materialised in C order. -/
def extractBlock (v : Nat → Nat → Nat → Int) (bi bx bs B : Nat) :
    List (List (List Int)) :=
  (List.range 4).map fun a =>
    (List.range 4).map fun b =>
      (List.range B).map fun c =>
        v (4 * bi + a) (4 * bx + b) (B * bs + c)

/-- Modelled from the spec: the opaque fixed-rate block codec (zfp, not
part of this repository).  Per spec §3/§6 the compressed body is a
contiguous sequence of independently coded fixed-size blocks "in
increasing inline-group order"; `bc` is the opaque per-block coder and the
whole-volume compression is the concatenation of the coded 4 × 4 × `B`
blocks in raster scan order (inline-group slowest). -/
def compress3d (bc : List (List (List Int)) → List Nat)
    (v : Nat → Nat → Nat → Int) (I X S B : Nat) : List Nat :=
  catUp (fun bi =>
    catUp (fun bx =>
      catUp (fun bs => bc (extractBlock v bi bx bs B)) (S / B)) (X / 4)) (I / 4)

/-- The zero-padded cube `data_padded` of `convert_segy_inmem`: source
samples inside the true extent, zeros outside. -/
def paddedCube (s : SegySource) : Nat → Nat → Nat → Int :=
  fun i x t =>
    if i < s.ilines.length ∧ x < s.xlines.length ∧ t < s.samples.length then
      s.trace i x t
    else 0

/-- `convert_segy_inmem` from `convert.py`: open, advisory memory check
against total memory, header, whole-cube read, pad, single compression,
write header then payload.  The returned byte list is the output file. -/
def convertInmem (bc : List (List (List Int)) → List Nat)
    (f2b : Int → List Nat) (r : RawSegy) (mem : MemInfo) (bpv : Nat) :
    Except ConvError (List Nat) :=
  match openSegy r with
  | .error e => .error e
  | .ok s =>
    if mem.total < s.samples.length * s.xlines.length * s.ilines.length * 4 then
      .error .insufficientMemory
    else
      match makeHeader f2b r bpv with
      | .error e => .error e
      | .ok header =>
        match openSegy r with
        | .error e => .error e
        | .ok s2 =>
          match blockSize bpv with
          | .error e => .error e
          | .ok B =>
            match padE s2.samples.length B with
            | .error e => .error e
            | .ok pS =>
              .ok (header ++
                compress3d bc (paddedCube s2)
                  (pad s2.ilines.length 4) (pad s2.xlines.length 4) pS B)

/-- `planes_to_read` computed by `produce` for inline-group `psid`. -/
def planesToRead (nIlines psid : Nat) : Nat :=
  if nIlines < (psid + 1) * 4 then nIlines % 4 else 4

/-- The 4-inline buffer `segy_buffer` that `produce` enqueues for group
`psid`: allocated as zeros of shape `(4, padded_xlines, padded_samples)`,
with planes `i < planes_to_read` filled by inline `4 * psid + i` over the
true `(crossline, sample)` extent. -/
def streamBuffer (s : SegySource) (psid : Nat) : Nat → Nat → Nat → Int :=
  fun p x t =>
    if p < planesToRead s.ilines.length psid ∧
        x < s.xlines.length ∧ t < s.samples.length then
      s.trace (4 * psid + p) x t
    else 0

/-- The buffer of group `g`, materialised at its allocated numpy shape
`(4, pad n_xlines 4, pad trace_length B)`. -/
def streamBufferList (s : SegySource) (B g : Nat) : List (List (List Int)) :=
  (List.range 4).map fun p =>
    (List.range (pad s.xlines.length 4)).map fun x =>
      (List.range (pad s.samples.length B)).map fun t =>
        streamBuffer s g p x t

/-- The ordered list of buffers `produce` enqueues (the queue is strict
FIFO with a single producer and a single consumer, so this is also the
order in which `consume` compresses and writes them). -/
def produceBufferList (s : SegySource) (B : Nat) : List (List (List (List Int))) :=
  (List.range (pad s.ilines.length 4 / 4)).map (streamBufferList s B)

/-- `convert_segy_stream` / `run` / `produce` / `consume` from
`convert.py`: the overall outcome of a streaming run.  `run` builds the
header first (which opens the source and may fail), then the producer
opens the source and computes the padded shape via
`2048 // bits_per_voxel`; the consumer writes the header followed by the
compression of each enqueued 4-inline buffer in FIFO order.  This value is
the run's outcome (success bytes or the exception that stopped it); the
bytes actually left on disk, which on the padded-shape failure path are
not empty, are modelled by `streamFileState` below. -/
def convertStream (bc : List (List (List Int)) → List Nat)
    (f2b : Int → List Nat) (r : RawSegy) (bpv : Nat) :
    Except ConvError (List Nat) :=
  match makeHeader f2b r bpv with
  | .error e => .error e
  | .ok header =>
    match openSegy r with
    | .error e => .error e
    | .ok s =>
      match blockSize bpv with
      | .error e => .error e
      | .ok B =>
        match padE s.samples.length B with
        | .error e => .error e
        | .ok pS =>
          .ok (header ++
            catUp (fun g =>
                compress3d bc (streamBuffer s g) 4
                  (pad s.xlines.length 4) pS B)
              (pad s.ilines.length 4 / 4))

/-- The bytes present in the streaming strategy's output file after the
run stops, `none` meaning the file was never created.  `run` calls
`make_header` before `ensure_future(consume)`, so a header failure leaves
no file; once the consumer task is scheduled it opens the output file and
writes the header during the next event-loop iteration, before an
exception raised synchronously inside `produce` ahead of its first await —
such as the `ZeroDivisionError` from the padded-shape computation — stops
the loop.  Hence those failures leave a file holding exactly the header,
and a completed run leaves the header followed by the compressed
groups in FIFO order. -/
def streamFileState (bc : List (List (List Int)) → List Nat)
    (f2b : Int → List Nat) (r : RawSegy) (bpv : Nat) : Option (List Nat) :=
  match makeHeader f2b r bpv with
  | .error _ => none
  | .ok header =>
    match openSegy r with
    | .error _ => some header
    | .ok s =>
      match blockSize bpv with
      | .error _ => some header
      | .ok B =>
        match padE s.samples.length B with
        | .error _ => some header
        | .ok pS =>
          some (header ++
            catUp (fun g =>
                compress3d bc (streamBuffer s g) 4
                  (pad s.xlines.length 4) pS B)
              (pad s.ilines.length 4 / 4))

/-- The flat trace index used by the diagonal loop of
`read-correlated-diagonal.py`: `(d + l) * n_xlines + d` for `l ≥ 0`,
`d * n_xlines + d - l` for `l < 0`. -/
def diagTraceIndex (l : Int) (nXl : Nat) (d : Nat) : Int :=
  if 0 ≤ l then ((d : Int) + l) * (nXl : Int) + (d : Int)
  else (d : Int) * (nXl : Int) + (d : Int) - l

/-- Modelled from the spec: `get_correlated_diagonal_length` from the
repository's `utils.py` (absent from `src/`): `min(I - l, X)` for
`l ≥ 0` and `min(I, X + l)` for `l < 0`. -/
def get_correlated_diagonal_length (l : Int) (nIl nXl : Nat) : Nat :=
  if 0 ≤ l then min (nIl - l.toNat) nXl else min nIl (nXl - (-l).toNat)

/-- Whether a conversion result is a success (an output file exists). -/
def isOkB (e : Except ConvError (List Nat)) : Bool :=
  match e with
  | .ok _ => true
  | .error _ => false

/-! ### Concrete fixtures used by the witness theorems -/

/-- A trivial per-block coder (constant output). -/
def cBC : List (List (List Int)) → List Nat := fun _ => [7]

/-- A trivial 4-byte float encoder standing in for `np_float_to_bytes`. -/
def cF2b : Int → List Nat := fun v => [v.natAbs % 256, 0, 0, 0]

/-- A consistent 2 × 2 × 2 source volume. -/
def cRaw : RawSegy :=
  { ilines := [0, 1], xlines := [10, 11], samples := [1000, 1002],
    data := [[[1, 2], [3, 4]], [[5, 6], [7, 8]]] }

/-- A source volume whose trace length varies across traces. -/
def cBadRaw : RawSegy :=
  { ilines := [0, 1], xlines := [10, 11], samples := [1000, 1002],
    data := [[[1, 2], [3, 4]], [[5, 6], [7]]] }

/-- A machine with 1000 bytes of total memory, 10 available. -/
def cMem : MemInfo := { total := 1000, available := 10 }

/-- A machine with 10 bytes of memory in all. -/
def cSmallMem : MemInfo := { total := 10, available := 10 }

/-- A consistent source volume with a single inline (degenerate geometry:
no inline increment can be derived). -/
def cDegenRaw : RawSegy :=
  { ilines := [0], xlines := [10, 11], samples := [1000, 1002],
    data := [[[1, 2], [3, 4]]] }

/-- An opened 5-inline, 2-crossline, 1-sample source. -/
def cSrc : SegySource :=
  { ilines := [0, 1, 2, 3, 4], xlines := [10, 11], samples := [0],
    trace := fun i x t => (i : Int) * 100 + (x : Int) * 10 + (t : Int) }

/-! ### Helper lemmas -/

theorem pad_ge (n m : Nat) : n ≤ pad n m := by
  unfold pad; split <;> omega

theorem pad_lt_add (n m : Nat) (hm : 1 ≤ m) : pad n m < n + m := by
  unfold pad
  split
  · omega
  · have hlt : n % m < m := Nat.mod_lt _ (by omega)
    omega

theorem pad_mod (n m : Nat) (hm : 1 ≤ m) : pad n m % m = 0 := by
  unfold pad
  split
  · assumption
  · have hlt : n % m < m := Nat.mod_lt _ (by omega)
    have hdm := Nat.div_add_mod n m
    have hmul : m * (n / m + 1) = m * (n / m) + m := by ring
    have : n + (m - n % m) = m * (n / m + 1) := by omega
    rw [this]
    exact Nat.mul_mod_right _ _

theorem catUp_congr {f g : Nat → List Nat} (n : Nat)
    (h : ∀ k, k < n → f k = g k) : catUp f n = catUp g n := by
  induction n with
  | zero => rfl
  | succ m ih =>
    unfold catUp
    rw [ih fun k hk => h k (by omega), h m (by omega)]

theorem catUp_one (f : Nat → List Nat) : catUp f 1 = f 0 := by
  show catUp f 0 ++ f 0 = f 0
  rw [show catUp f 0 = [] from rfl, List.nil_append]

theorem extractBlock_congr {v w : Nat → Nat → Nat → Int} (bi bx bs B : Nat)
    (h : ∀ a b c, a < 4 → b < 4 → c < B →
      v (4 * bi + a) (4 * bx + b) (B * bs + c) =
        w (4 * bi + a) (4 * bx + b) (B * bs + c)) :
    extractBlock v bi bx bs B = extractBlock w bi bx bs B := by
  unfold extractBlock
  refine List.map_congr_left fun a ha => ?_
  refine List.map_congr_left fun b hb => ?_
  refine List.map_congr_left fun c hc => ?_
  exact h a b c (List.mem_range.mp ha) (List.mem_range.mp hb) (List.mem_range.mp hc)

/-- Compression only looks at the volume inside the padded extent. -/
theorem compress3d_congr (bc : List (List (List Int)) → List Nat)
    {v w : Nat → Nat → Nat → Int} (I X S B : Nat)
    (h : ∀ i x t, i < I → x < X → t < S → v i x t = w i x t) :
    compress3d bc v I X S B = compress3d bc w I X S B := by
  unfold compress3d
  refine catUp_congr _ fun bi hbi => ?_
  refine catUp_congr _ fun bx hbx => ?_
  refine catUp_congr _ fun bs hbs => ?_
  have hI := Nat.div_mul_le_self I 4
  have hX := Nat.div_mul_le_self X 4
  have hS := Nat.div_mul_le_self S B
  congr 1
  refine extractBlock_congr bi bx bs B fun a b c ha hb hc => ?_
  have h1 : B * (bs + 1) ≤ B * (S / B) := Nat.mul_le_mul (Nat.le_refl B) hbs
  have h2 : B * (bs + 1) = B * bs + B := by ring
  have h3 : B * (S / B) = S / B * B := Nat.mul_comm _ _
  exact h _ _ _ (by omega) (by omega) (by omega)

theorem extractBlock_shift (v : Nat → Nat → Nat → Int) (g bx bs B : Nat) :
    extractBlock (fun p x t => v (4 * g + p) x t) 0 bx bs B =
      extractBlock v g bx bs B := by
  simp [extractBlock]

/-- Compressing a volume along whole inline-groups is the concatenation of
the compressions of its 4-inline slabs. -/
theorem compress3d_slabs (bc : List (List (List Int)) → List Nat)
    (v : Nat → Nat → Nat → Int) (I X S B : Nat) :
    compress3d bc v I X S B =
      catUp (fun g => compress3d bc (fun p x t => v (4 * g + p) x t) 4 X S B)
        (I / 4) := by
  unfold compress3d
  refine catUp_congr _ fun g hg => ?_
  have h1 : (4 : Nat) / 4 = 1 := rfl
  rw [h1, catUp_one]
  refine catUp_congr _ fun bx hbx => ?_
  refine catUp_congr _ fun bs hbs => ?_
  rw [extractBlock_shift]

/-- Inside an inline-group produced by the streaming reader, the enqueued
buffer agrees with the corresponding slab of the in-memory padded cube. -/
theorem streamBuffer_eq_paddedCube (s : SegySource) (g p x t : Nat)
    (hg : g < pad s.ilines.length 4 / 4) (hp : p < 4) :
    streamBuffer s g p x t = paddedCube s (4 * g + p) x t := by
  have hge := pad_ge s.ilines.length 4
  have hlt := pad_lt_add s.ilines.length 4 (by omega)
  have hmod := pad_mod s.ilines.length 4 (by omega)
  have key : (p < planesToRead s.ilines.length g) ↔ (4 * g + p < s.ilines.length) := by
    unfold planesToRead
    split <;> omega
  unfold streamBuffer paddedCube
  exact if_congr (and_congr_left fun _ => key) rfl rfl

theorem openSegy_ok {r : RawSegy} (hcons : consistentB r = true) :
    openSegy r = .ok (sourceOf r) := by
  unfold openSegy
  rw [hcons]
  rfl

theorem makeHeader_ok (f2b : Int → List Nat) {r : RawSegy} (bpv : Nat)
    (hcons : consistentB r = true)
    (h2s : 2 ≤ r.samples.length) (h2x : 2 ≤ r.xlines.length)
    (h2i : 2 ≤ r.ilines.length) :
    makeHeader f2b r bpv = .ok (headerBytes f2b (sourceOf r) bpv) := by
  unfold makeHeader
  rw [openSegy_ok hcons]
  exact if_pos ⟨h2s, h2x, h2i⟩

theorem blockSize_ok {bpv : Nat} (hbpv : 1 ≤ bpv) :
    blockSize bpv = .ok (2048 / bpv) := by
  unfold blockSize
  exact if_neg (by omega)

theorem padE_ok (o m : Nat) (hm : 1 ≤ m) : padE o m = .ok (pad o m) := by
  unfold padE
  exact if_neg (by omega)

theorem padE_zero (o : Nat) {m : Nat} (hm : m = 0) :
    padE o m = .error .zeroDivision := by
  unfold padE
  exact if_pos hm

/-- C1: for every source volume and bits-per-voxel, the streaming strategy
produces a file byte-for-byte identical to the whole-volume strategy's
(header and compressed payload both), the block codec `bc` being an
arbitrary (hence deterministic) per-block coder.  The hypotheses are
exactly the conditions under which both strategies complete. -/
theorem streaming_matches_inmem (bc : List (List (List Int)) → List Nat)
    (f2b : Int → List Nat) (r : RawSegy) (mem : MemInfo) (bpv : Nat)
    (hcons : consistentB r = true)
    (h2s : 2 ≤ r.samples.length) (h2x : 2 ≤ r.xlines.length)
    (h2i : 2 ≤ r.ilines.length) (hbpv : 1 ≤ bpv)
    (hmem : r.samples.length * r.xlines.length * r.ilines.length * 4 ≤ mem.total) :
    convertStream bc f2b r bpv = convertInmem bc f2b r mem bpv := by
  unfold convertStream convertInmem
  rw [openSegy_ok hcons, makeHeader_ok f2b bpv hcons h2s h2x h2i,
    blockSize_ok hbpv]
  dsimp only [sourceOf]
  have hnot : ¬ mem.total <
      r.samples.length * r.xlines.length * r.ilines.length * 4 := by omega
  rw [if_neg hnot]
  by_cases hB : 2048 / bpv = 0
  · rw [padE_zero r.samples.length hB]
  · rw [padE_ok r.samples.length (2048 / bpv) (Nat.pos_of_ne_zero hB)]
    show Except.ok _ = Except.ok _
    congr 1
    congr 1
    rw [compress3d_slabs]
    refine catUp_congr _ fun g hg => ?_
    exact compress3d_congr bc 4 _ _ _ fun p x t hp hx ht =>
      streamBuffer_eq_paddedCube (sourceOf r) g p x t hg hp

theorem streaming_matches_inmem_witness :
    convertStream cBC cF2b cRaw 4 = convertInmem cBC cF2b cRaw cMem 4 :=
  streaming_matches_inmem cBC cF2b cRaw cMem 4 (by decide) (by decide)
    (by decide) (by decide) (by decide) (by decide)

/-- C2: for every valid line index `l` and position `d` on the correlated
diagonal, the flat trace index used by `read-correlated-diagonal.py`
decomposes as `inline * n_xlines + crossline` with
`(inline, crossline) = (d + max(l,0), d + max(-l,0))`, both coordinates in
range; the flat index (hence the coordinate pair) is strictly increasing
in `d`; and for `I = 10`, `X = 6`, `l = 2` the pair sequence is
`(2,0),(3,1),(4,2),(5,3),(6,4),(7,5)`. -/
theorem diagonal_coordinates :
    (∀ (nIl nXl : Nat) (l : Int) (d : Nat),
        1 - (nXl : Int) ≤ l → l ≤ (nIl : Int) - 1 →
        d < get_correlated_diagonal_length l nIl nXl →
        diagTraceIndex l nXl d =
            ((d + (max l 0).toNat : Nat) : Int) * (nXl : Int) +
              ((d + (max (-l) 0).toNat : Nat) : Int) ∧
          d + (max l 0).toNat < nIl ∧
          d + (max (-l) 0).toNat < nXl ∧
          ∀ e : Nat, d < e → e < get_correlated_diagonal_length l nIl nXl →
            diagTraceIndex l nXl d < diagTraceIndex l nXl e) ∧
      (List.range 6).map (fun d =>
          ((diagTraceIndex 2 6 d).toNat / 6, (diagTraceIndex 2 6 d).toNat % 6)) =
        [(2, 0), (3, 1), (4, 2), (5, 3), (6, 4), (7, 5)] := by
  constructor
  · intro nIl nXl l d hl1 hl2 hd
    unfold get_correlated_diagonal_length at hd
    by_cases h0 : 0 ≤ l
    · rw [if_pos h0] at hd
      have hmax1 : max l 0 = l := max_eq_left h0
      have hmax2 : max (-l) 0 = 0 := max_eq_right (by omega)
      rw [hmax1, hmax2]
      refine ⟨?_, by omega, by omega, ?_⟩
      · unfold diagTraceIndex
        rw [if_pos h0]
        push_cast [Int.toNat_of_nonneg h0]
        ring
      · intro e hde hee
        unfold diagTraceIndex
        rw [if_pos h0, if_pos h0]
        have hX : (0 : Int) ≤ (nXl : Int) := by positivity
        have h1 : (0 : Int) ≤ ((e : Int) - (d : Int)) * (nXl : Int) :=
          mul_nonneg (by omega) hX
        nlinarith [h1]
    · rw [if_neg h0] at hd
      have hneg : l < 0 := by omega
      have hmax1 : max l 0 = 0 := max_eq_right (by omega)
      have hmax2 : max (-l) 0 = -l := max_eq_left (by omega)
      rw [hmax1, hmax2]
      refine ⟨?_, by omega, by omega, ?_⟩
      · unfold diagTraceIndex
        rw [if_neg h0]
        push_cast [Int.toNat_of_nonneg (show (0 : Int) ≤ -l by omega)]
        ring
      · intro e hde hee
        unfold diagTraceIndex
        rw [if_neg h0, if_neg h0]
        have hX : (0 : Int) ≤ (nXl : Int) := by positivity
        have h1 : (0 : Int) ≤ ((e : Int) - (d : Int)) * (nXl : Int) :=
          mul_nonneg (by omega) hX
        nlinarith [h1]
  · decide

theorem diagonal_coordinates_witness :
    3 + (max (2 : Int) 0).toNat < 10 ∧ 3 + (max (-(2 : Int)) 0).toNat < 6 :=
  ⟨(diagonal_coordinates.1 10 6 2 3 (by decide) (by decide) (by decide)).2.1,
   (diagonal_coordinates.1 10 6 2 3 (by decide) (by decide) (by decide)).2.2.1⟩

/-- C3: for all `I ≥ 1`, `X ≥ 1` and valid `l`, the diagonal length is
`min (I - l) X` for `l ≥ 0` and `min I (X + l)` for `l < 0`; it equals the
number of positions `d` whose addressed coordinate pair lies on the grid;
and it is at least 1 (in particular at the boundary indices `l = I - 1`
and `l = -(X - 1)`). -/
theorem diagonal_length_law :
    ∀ (nIl nXl : Nat) (l : Int), 1 ≤ nIl → 1 ≤ nXl →
      1 - (nXl : Int) ≤ l → l ≤ (nIl : Int) - 1 →
      ((0 ≤ l →
          get_correlated_diagonal_length l nIl nXl = min (nIl - l.toNat) nXl) ∧
        (l < 0 →
          get_correlated_diagonal_length l nIl nXl = min nIl (nXl - (-l).toNat)) ∧
        ((List.range (nIl + nXl)).filter (fun d =>
              decide (d + (max l 0).toNat < nIl ∧ d + (max (-l) 0).toNat < nXl))).length
          = get_correlated_diagonal_length l nIl nXl ∧
        1 ≤ get_correlated_diagonal_length l nIl nXl) := by
  intro nIl nXl l hI hX hl1 hl2
  have hchar : ∀ d : Nat,
      (d + (max l 0).toNat < nIl ∧ d + (max (-l) 0).toNat < nXl) ↔
        d < get_correlated_diagonal_length l nIl nXl := by
    intro d
    unfold get_correlated_diagonal_length
    by_cases h0 : 0 ≤ l
    · rw [if_pos h0]
      have hmax1 : max l 0 = l := max_eq_left h0
      have hmax2 : max (-l) 0 = 0 := max_eq_right (by omega)
      rw [hmax1, hmax2]
      omega
    · rw [if_neg h0]
      have hmax1 : max l 0 = 0 := max_eq_right (by omega)
      have hmax2 : max (-l) 0 = -l := max_eq_left (by omega)
      rw [hmax1, hmax2]
      omega
  have hbound : get_correlated_diagonal_length l nIl nXl ≤ nIl + nXl := by
    unfold get_correlated_diagonal_length
    split <;> omega
  refine ⟨?_, ?_, ?_, ?_⟩
  · intro h0
    unfold get_correlated_diagonal_length
    rw [if_pos h0]
  · intro h0
    unfold get_correlated_diagonal_length
    rw [if_neg (by omega)]
  · rw [List.filter_congr fun d _ => decide_eq_decide.mpr (hchar d)]
    have : ∀ n k : Nat,
        ((List.range n).filter fun d => decide (d < k)).length = min k n := by
      intro n k
      induction n with
      | zero => simp
      | succ m ih =>
        rw [List.range_succ, List.filter_append, List.length_append, ih]
        by_cases h : m < k
        · simp [h]; omega
        · simp [h]; omega
    rw [this]
    omega
  · have := (hchar 0).mp (by constructor <;> omega)
    omega

theorem drop_past (c l : List Nat) (k m : Nat) (h : c.length + m = k) :
    (c ++ l).drop k = l.drop m := by
  subst h
  induction c with
  | nil => simp
  | cons a t ih => simp [Nat.succ_add, ih]

theorem take_past (c l : List Nat) (k m : Nat) (h : c.length + m = k) :
    (c ++ l).take k = c ++ l.take m := by
  subst h
  induction c with
  | nil => simp
  | cons a t ih => simp [Nat.succ_add, ih]

theorem diagonal_length_law_witness :
    get_correlated_diagonal_length 2 10 6 = min (10 - (2 : Int).toNat) 6 ∧
      1 ≤ get_correlated_diagonal_length (-5) 10 6 :=
  ⟨(diagonal_length_law 10 6 2 (by decide) (by decide) (by decide) (by decide)).1
      (by decide),
   (diagonal_length_law 10 6 (-5) (by decide) (by decide) (by decide)
      (by decide)).2.2.2⟩

/-- C4: the header encoder returns exactly 4096 bytes: block count 1 in
`[0,4)`, samples/crossline/inline counts in `[4,16)` (uint32 LE), the six
geometry values under the 4-byte float encoder in `[16,40)`,
bits-per-voxel in `[40,44)`, and zeros in `[44,4096)`. -/
theorem header_layout (f2b : Int → List Nat) (r : RawSegy) (bpv : Nat)
    (hf : ∀ v, (f2b v).length = 4) (hcons : consistentB r = true)
    (h2s : 2 ≤ r.samples.length) (h2x : 2 ≤ r.xlines.length)
    (h2i : 2 ≤ r.ilines.length) :
    ∃ buf, makeHeader f2b r bpv = Except.ok buf ∧
      buf.length = 4096 ∧
      buf.take 4 = uint32le 1 ∧
      (buf.drop 4).take 4 = uint32le r.samples.length ∧
      (buf.drop 8).take 4 = uint32le r.xlines.length ∧
      (buf.drop 12).take 4 = uint32le r.ilines.length ∧
      (buf.drop 16).take 24 =
        f2b (r.samples.getD 0 0) ++ (f2b (r.xlines.getD 0 0) ++
          (f2b (r.ilines.getD 0 0) ++
            (f2b (r.samples.getD 1 0 - r.samples.getD 0 0) ++
              (f2b (r.xlines.getD 1 0 - r.xlines.getD 0 0) ++
                f2b (r.ilines.getD 1 0 - r.ilines.getD 0 0))))) ∧
      (buf.drop 40).take 4 = uint32le bpv ∧
      buf.drop 44 = List.replicate 4052 0 := by
  refine ⟨headerBytes f2b (sourceOf r) bpv,
    makeHeader_ok f2b bpv hcons h2s h2x h2i, ?_, ?_, ?_, ?_, ?_, ?_, ?_, ?_⟩
  · dsimp only [headerBytes, sourceOf]
    simp only [List.length_append, List.length_replicate, hf]
    norm_num [uint32le, DISK_BLOCK_BYTES]
  · dsimp only [headerBytes, sourceOf]
    simp only [List.append_assoc]
    exact List.take_left' rfl
  · dsimp only [headerBytes, sourceOf]
    simp only [List.append_assoc]
    rw [List.drop_left' (show (uint32le 1).length = 4 from rfl)]
    exact List.take_left' rfl
  · dsimp only [headerBytes, sourceOf]
    simp only [List.append_assoc]
    rw [drop_past (uint32le 1) _ 8 4 rfl,
      List.drop_left' (show (uint32le r.samples.length).length = 4 from rfl)]
    exact List.take_left' rfl
  · dsimp only [headerBytes, sourceOf]
    simp only [List.append_assoc]
    rw [drop_past (uint32le 1) _ 12 8 rfl,
      drop_past (uint32le r.samples.length) _ 8 4 rfl,
      List.drop_left' (show (uint32le r.xlines.length).length = 4 from rfl)]
    exact List.take_left' rfl
  · dsimp only [headerBytes, sourceOf]
    simp only [List.append_assoc]
    rw [drop_past (uint32le 1) _ 16 12 rfl,
      drop_past (uint32le r.samples.length) _ 12 8 rfl,
      drop_past (uint32le r.xlines.length) _ 8 4 rfl,
      List.drop_left' (show (uint32le r.ilines.length).length = 4 from rfl)]
    rw [take_past _ _ 24 20 (by rw [hf]),
      take_past _ _ 20 16 (by rw [hf]),
      take_past _ _ 16 12 (by rw [hf]),
      take_past _ _ 12 8 (by rw [hf]),
      take_past _ _ 8 4 (by rw [hf]),
      List.take_left' (hf _)]
  · dsimp only [headerBytes, sourceOf]
    simp only [List.append_assoc]
    rw [drop_past (uint32le 1) _ 40 36 rfl,
      drop_past (uint32le r.samples.length) _ 36 32 rfl,
      drop_past (uint32le r.xlines.length) _ 32 28 rfl,
      drop_past (uint32le r.ilines.length) _ 28 24 rfl,
      drop_past _ _ 24 20 (by rw [hf]),
      drop_past _ _ 20 16 (by rw [hf]),
      drop_past _ _ 16 12 (by rw [hf]),
      drop_past _ _ 12 8 (by rw [hf]),
      drop_past _ _ 8 4 (by rw [hf]),
      drop_past _ _ 4 0 (by rw [hf]),
      List.drop_zero]
    exact List.take_left' rfl
  · dsimp only [headerBytes, sourceOf]
    simp only [List.append_assoc]
    rw [drop_past (uint32le 1) _ 44 40 rfl,
      drop_past (uint32le r.samples.length) _ 40 36 rfl,
      drop_past (uint32le r.xlines.length) _ 36 32 rfl,
      drop_past (uint32le r.ilines.length) _ 32 28 rfl,
      drop_past _ _ 28 24 (by rw [hf]),
      drop_past _ _ 24 20 (by rw [hf]),
      drop_past _ _ 20 16 (by rw [hf]),
      drop_past _ _ 16 12 (by rw [hf]),
      drop_past _ _ 12 8 (by rw [hf]),
      drop_past _ _ 8 4 (by rw [hf]),
      drop_past (uint32le bpv) _ 4 0 rfl,
      List.drop_zero]
    norm_num [DISK_BLOCK_BYTES]

theorem header_layout_witness :
    ∃ buf, makeHeader cF2b cRaw 4 = Except.ok buf ∧ buf.length = 4096 :=
  match header_layout cF2b cRaw 4 (fun _ => rfl) (by decide) (by decide)
      (by decide) (by decide) with
  | ⟨buf, h1, h2, _⟩ => ⟨buf, h1, h2⟩

/-- C9: header encoding fails with `InvalidGeometry` when any axis has
fewer than 2 coordinate values, and with at least 2 values per axis it
succeeds and stores, at bytes `[28,40)`, the increments computed as the
difference of the first two values of each axis. -/
theorem geometry_guard (f2b : Int → List Nat) (r : RawSegy) (bpv : Nat)
    (hf : ∀ v, (f2b v).length = 4) (hcons : consistentB r = true) :
    ((r.samples.length < 2 ∨ r.xlines.length < 2 ∨ r.ilines.length < 2) →
      makeHeader f2b r bpv = Except.error ConvError.invalidGeometry) ∧
    (2 ≤ r.samples.length → 2 ≤ r.xlines.length → 2 ≤ r.ilines.length →
      ∃ buf, makeHeader f2b r bpv = Except.ok buf ∧
        (buf.drop 28).take 12 =
          f2b (r.samples.getD 1 0 - r.samples.getD 0 0) ++
            (f2b (r.xlines.getD 1 0 - r.xlines.getD 0 0) ++
              f2b (r.ilines.getD 1 0 - r.ilines.getD 0 0))) := by
  constructor
  · intro hlt
    unfold makeHeader
    rw [openSegy_ok hcons]
    dsimp only [sourceOf]
    rw [if_neg (by omega)]
  · intro h2s h2x h2i
    refine ⟨headerBytes f2b (sourceOf r) bpv,
      makeHeader_ok f2b bpv hcons h2s h2x h2i, ?_⟩
    dsimp only [headerBytes, sourceOf]
    simp only [List.append_assoc]
    rw [drop_past (uint32le 1) _ 28 24 rfl,
      drop_past (uint32le r.samples.length) _ 24 20 rfl,
      drop_past (uint32le r.xlines.length) _ 20 16 rfl,
      drop_past (uint32le r.ilines.length) _ 16 12 rfl,
      drop_past _ _ 12 8 (by rw [hf]),
      drop_past _ _ 8 4 (by rw [hf]),
      drop_past _ _ 4 0 (by rw [hf]),
      List.drop_zero]
    rw [take_past _ _ 12 8 (by rw [hf]),
      take_past _ _ 8 4 (by rw [hf]),
      List.take_left' (hf _)]

theorem geometry_guard_witness :
    makeHeader cF2b cDegenRaw 4 = Except.error ConvError.invalidGeometry ∧
      ∃ buf, makeHeader cF2b cRaw 4 = Except.ok buf :=
  ⟨(geometry_guard cF2b cDegenRaw 4 (fun _ => rfl) (by decide)).1
      (Or.inr (Or.inr (by decide))),
   match (geometry_guard cF2b cRaw 4 (fun _ => rfl) (by decide)).2
      (by decide) (by decide) (by decide) with
   | ⟨buf, h1, _⟩ => ⟨buf, h1⟩⟩

/-- C5: for every supported bits-per-voxel and any dimensions, the padded
shape is divisible by 4 in the inline and crossline axes and by
`2048 / bits_per_voxel` in the sample axis, never smaller than the
original, and the positions added by padding hold zero samples. -/
theorem padding_invariant (bpv I X S : Nat)
    (hbpv : bpv = 1 ∨ bpv = 2 ∨ bpv = 4 ∨ bpv = 8 ∨ bpv = 16) :
    (pad I 4 % 4 = 0 ∧ pad X 4 % 4 = 0 ∧
      pad S (2048 / bpv) % (2048 / bpv) = 0 ∧
      I ≤ pad I 4 ∧ X ≤ pad X 4 ∧ S ≤ pad S (2048 / bpv)) ∧
    ∀ (s : SegySource) (i x t : Nat),
      s.ilines.length ≤ i ∨ s.xlines.length ≤ x ∨ s.samples.length ≤ t →
      paddedCube s i x t = 0 := by
  have hB : 1 ≤ 2048 / bpv := by rcases hbpv with h | h | h | h | h <;> subst h <;> decide
  refine ⟨⟨pad_mod I 4 (by omega), pad_mod X 4 (by omega),
    pad_mod S (2048 / bpv) hB, pad_ge I 4, pad_ge X 4, pad_ge S (2048 / bpv)⟩,
    ?_⟩
  intro s i x t hout
  unfold paddedCube
  rw [if_neg (by omega)]

theorem padding_invariant_witness :
    pad 5 4 % 4 = 0 ∧ 7 ≤ pad 7 (2048 / 4) :=
  ⟨(padding_invariant 4 5 3 7 (by tauto)).1.1,
   (padding_invariant 4 5 3 7 (by tauto)).1.2.2.2.2.2⟩

/-- C6 counterexample: a volume whose estimated raw size (32 bytes)
exceeds available memory (10 bytes) but not total memory (1000 bytes) is
converted successfully — the code compares against
`virtual_memory().total`, not available memory — so the claim as stated
(guard against available memory) is false. -/
theorem memory_guard_counterexample :
    cMem.available <
        cRaw.samples.length * cRaw.xlines.length * cRaw.ilines.length * 4 ∧
      isOkB (convertInmem cBC cF2b cRaw cMem 4) = true := by
  constructor
  · decide
  · decide

/-- C6 (amended): whole-volume conversion of a volume whose estimated raw
size exceeds the machine's *total* physical memory fails with
`InsufficientMemory` and creates no output file. -/
theorem memory_guard (bc : List (List (List Int)) → List Nat)
    (f2b : Int → List Nat) (r : RawSegy) (mem : MemInfo) (bpv : Nat)
    (hcons : consistentB r = true)
    (hmem : mem.total < r.samples.length * r.xlines.length * r.ilines.length * 4) :
    convertInmem bc f2b r mem bpv = Except.error ConvError.insufficientMemory := by
  unfold convertInmem
  rw [openSegy_ok hcons]
  dsimp only [sourceOf]
  rw [if_pos hmem]

theorem memory_guard_witness :
    convertInmem cBC cF2b cRaw cSmallMem 4 =
      Except.error ConvError.insufficientMemory :=
  memory_guard cBC cF2b cRaw cSmallMem 4 (by decide) (by decide)

/-- C7 counterexample: `bits_per_voxel = 3` does not divide 2048 and is
outside `{1,2,4,8,16}`, yet both strategies convert successfully (no
`InvalidBitsPerVoxel` validation exists), so the claim as stated is
false. -/
theorem bpv_validation_counterexample :
    2048 % 3 ≠ 0 ∧
      isOkB (convertInmem cBC cF2b cRaw cMem 3) = true ∧
      isOkB (convertStream cBC cF2b cRaw 3) = true := by
  refine ⟨by decide, by decide, by decide⟩

/-- C7 (amended): conversion performs no bits-per-voxel validation.  Every
`bits_per_voxel` with `1 ≤ bpv ≤ 2048` — including values outside
`{1,2,4,8,16}` that do not evenly divide 2048, such as 3 — is accepted by
both strategies, which use the floor of `2048 / bits_per_voxel` as the
sample-padding block size.  `bits_per_voxel = 0` makes `2048 // bpv`
divide by zero and `bits_per_voxel > 2048` makes the floor block size 0 so
the round-up pad's remainder divides by zero; in both cases neither
strategy reports `InvalidBitsPerVoxel`: the in-memory strategy fails
leaving no output file, while the streaming strategy's already-scheduled
consumer has created the output file and written the 4096-byte header by
the time the error surfaces. -/
theorem bpv_no_validation (bc : List (List (List Int)) → List Nat)
    (f2b : Int → List Nat) (r : RawSegy) (mem : MemInfo) (bpv : Nat)
    (hcons : consistentB r = true)
    (h2s : 2 ≤ r.samples.length) (h2x : 2 ≤ r.xlines.length)
    (h2i : 2 ≤ r.ilines.length)
    (hmem : r.samples.length * r.xlines.length * r.ilines.length * 4 ≤ mem.total) :
    (1 ≤ bpv → bpv ≤ 2048 →
      isOkB (convertInmem bc f2b r mem bpv) = true ∧
        isOkB (convertStream bc f2b r bpv) = true) ∧
    (bpv = 0 ∨ 2048 < bpv →
      convertInmem bc f2b r mem bpv = Except.error ConvError.zeroDivision ∧
        convertStream bc f2b r bpv = Except.error ConvError.zeroDivision ∧
        streamFileState bc f2b r bpv =
          some (headerBytes f2b (sourceOf r) bpv)) := by
  constructor
  · intro hbpv hle
    have hB : 1 ≤ 2048 / bpv := Nat.div_pos hle (by omega)
    constructor
    · unfold convertInmem
      rw [openSegy_ok hcons]
      dsimp only [sourceOf]
      rw [if_neg (by omega), makeHeader_ok f2b bpv hcons h2s h2x h2i,
        blockSize_ok hbpv]
      dsimp only
      rw [padE_ok r.samples.length (2048 / bpv) hB]
      rfl
    · unfold convertStream
      rw [makeHeader_ok f2b bpv hcons h2s h2x h2i, openSegy_ok hcons,
        blockSize_ok hbpv]
      dsimp only [sourceOf]
      rw [padE_ok r.samples.length (2048 / bpv) hB]
      rfl
  · intro h0
    rcases h0 with h | h
    · subst h
      refine ⟨?_, ?_, ?_⟩
      · unfold convertInmem
        rw [openSegy_ok hcons]
        dsimp only [sourceOf]
        rw [if_neg (by omega), makeHeader_ok f2b 0 hcons h2s h2x h2i]
        rfl
      · unfold convertStream
        rw [makeHeader_ok f2b 0 hcons h2s h2x h2i, openSegy_ok hcons]
        rfl
      · unfold streamFileState
        rw [makeHeader_ok f2b 0 hcons h2s h2x h2i, openSegy_ok hcons]
        rfl
    · have hbpv1 : 1 ≤ bpv := by omega
      have hB0 : 2048 / bpv = 0 := Nat.div_eq_of_lt (by omega)
      refine ⟨?_, ?_, ?_⟩
      · unfold convertInmem
        rw [openSegy_ok hcons]
        dsimp only [sourceOf]
        rw [if_neg (by omega), makeHeader_ok f2b bpv hcons h2s h2x h2i,
          blockSize_ok hbpv1]
        dsimp only
        rw [padE_zero r.samples.length hB0]
      · unfold convertStream
        rw [makeHeader_ok f2b bpv hcons h2s h2x h2i, openSegy_ok hcons,
          blockSize_ok hbpv1]
        dsimp only [sourceOf]
        rw [padE_zero r.samples.length hB0]
      · unfold streamFileState
        rw [makeHeader_ok f2b bpv hcons h2s h2x h2i, openSegy_ok hcons,
          blockSize_ok hbpv1]
        dsimp only [sourceOf]
        rw [padE_zero r.samples.length hB0]

theorem bpv_no_validation_witness :
    (isOkB (convertInmem cBC cF2b cRaw cMem 5) = true ∧
        isOkB (convertStream cBC cF2b cRaw 5) = true) ∧
      streamFileState cBC cF2b cRaw 0 =
        some (headerBytes cF2b (sourceOf cRaw) 0) :=
  ⟨(bpv_no_validation cBC cF2b cRaw cMem 5 (by decide) (by decide) (by decide)
      (by decide) (by decide)).1 (by decide) (by decide),
   ((bpv_no_validation cBC cF2b cRaw cMem 0 (by decide) (by decide) (by decide)
      (by decide) (by decide)).2 (Or.inl rfl)).2.2⟩

/-- C8: for a source volume whose trace geometry is inconsistent (the
source reader reports malformed geometry on open), both strategies fail
with `SourceFormatError` and produce no output file. -/
theorem source_format_guard (bc : List (List (List Int)) → List Nat)
    (f2b : Int → List Nat) (mem : MemInfo) (bpv : Nat) (r : RawSegy)
    (hbad : consistentB r = false) :
    convertInmem bc f2b r mem bpv = Except.error ConvError.sourceFormat ∧
      convertStream bc f2b r bpv = Except.error ConvError.sourceFormat := by
  have hopen : openSegy r = Except.error ConvError.sourceFormat := by
    simp [openSegy, hbad]
  constructor
  · unfold convertInmem
    rw [hopen]
  · unfold convertStream makeHeader
    rw [hopen]

theorem source_format_guard_witness :
    convertInmem cBC cF2b cBadRaw cMem 4 = Except.error ConvError.sourceFormat ∧
      convertStream cBC cF2b cBadRaw 4 = Except.error ConvError.sourceFormat :=
  source_format_guard cBC cF2b cMem 4 cBadRaw (by decide)

theorem getD_map_range {α : Type} (n g : Nat) (f : Nat → α) (d : α) (hg : g < n) :
    ((List.range n).map f).getD g d = f g := by
  rw [List.getD_eq_getElem?_getD, List.getElem?_map, List.getElem?_range hg]
  rfl

/-- C10: the producer enqueues exactly `padded_inline_count / 4` buffers,
each of the fixed shape `(4, padded_crossline_count, padded_sample_count)`;
when the inline count is not a multiple of 4, the final buffer holds the
remaining `inline_count mod 4` inlines and its other planes are
zero-filled rather than truncated. -/
theorem producer_buffer_invariants (s : SegySource) (B : Nat) :
    (produceBufferList s B).length = pad s.ilines.length 4 / 4 ∧
    (∀ g, g < pad s.ilines.length 4 / 4 →
      ((produceBufferList s B).getD g []).length = 4 ∧
      ∀ p, p < 4 →
        (((produceBufferList s B).getD g []).getD p []).length =
            pad s.xlines.length 4 ∧
          ∀ x, x < pad s.xlines.length 4 →
            ((((produceBufferList s B).getD g []).getD p []).getD x []).length =
              pad s.samples.length B) ∧
    (s.ilines.length % 4 ≠ 0 →
      (∀ p x t, s.ilines.length % 4 ≤ p →
        streamBuffer s (pad s.ilines.length 4 / 4 - 1) p x t = 0) ∧
      ∀ p x t, p < s.ilines.length % 4 → x < s.xlines.length →
        t < s.samples.length →
        streamBuffer s (pad s.ilines.length 4 / 4 - 1) p x t =
          s.trace (4 * (pad s.ilines.length 4 / 4 - 1) + p) x t) := by
  have hge := pad_ge s.ilines.length 4
  have hlt := pad_lt_add s.ilines.length 4 (by omega)
  have hmod := pad_mod s.ilines.length 4 (by omega)
  refine ⟨by simp [produceBufferList], ?_, ?_⟩
  · intro g hg
    rw [produceBufferList, getD_map_range _ _ _ _ hg]
    refine ⟨by simp [streamBufferList], ?_⟩
    intro p hp
    rw [streamBufferList, getD_map_range _ _ _ _ hp]
    refine ⟨by simp, ?_⟩
    intro x hx
    rw [getD_map_range _ _ _ _ hx]
    simp
  · intro hrem
    have hptr : planesToRead s.ilines.length (pad s.ilines.length 4 / 4 - 1) =
        s.ilines.length % 4 := by
      unfold planesToRead
      split <;> omega
    constructor
    · intro p x t hple
      unfold streamBuffer
      rw [hptr]
      rw [if_neg (by omega)]
    · intro p x t hp hx ht
      unfold streamBuffer
      rw [hptr]
      rw [if_pos ⟨hp, hx, ht⟩]

theorem producer_buffer_invariants_witness :
    (produceBufferList cSrc 2).length = pad cSrc.ilines.length 4 / 4 ∧
      streamBuffer cSrc (pad cSrc.ilines.length 4 / 4 - 1) 3 0 0 = 0 ∧
      streamBuffer cSrc (pad cSrc.ilines.length 4 / 4 - 1) 0 1 0 =
        cSrc.trace (4 * (pad cSrc.ilines.length 4 / 4 - 1) + 0) 1 0 :=
  ⟨(producer_buffer_invariants cSrc 2).1,
   ((producer_buffer_invariants cSrc 2).2.2 (by decide)).1 3 0 0 (by decide),
   ((producer_buffer_invariants cSrc 2).2.2 (by decide)).2 0 1 0 (by decide)
     (by decide) (by decide)⟩

end SeismicZfp
